import Mathlib

/-!
Verification of the agenda-tracker call dashboard.

The store is modelled as in-memory lists mirroring the three SQLite tables
(`daily_targets`, `calls`, `contacts`).  Dates are ISO `YYYY-MM-DD` strings;
SQLite compares TEXT columns lexicographically, which is exactly the `String`
linear order.  `created_at` timestamps are modelled as naturals (only their
relative order is ever used).  The database-layer functions of `database.py`
and the Flask handlers of `app.py` are embedded as pure functions on this
state.
-/

namespace Agenda

/-- A row of the `calls` table. -/
structure CallRow where
  id : Nat
  name : String
  response : String
  date : String
  created_at : Nat
deriving DecidableEq, Repr

/-- A row of the `contacts` table. -/
structure ContactRow where
  id : Nat
  name : String
  date : String
  created_at : Nat
deriving DecidableEq, Repr

/-- The whole store: the three tables plus the autoincrement counters, a
timestamp counter for `CURRENT_TIMESTAMP`, and the current calendar day
(`database.get_today()`). -/
structure DB where
  targets : List (String × Int)
  calls : List CallRow
  contacts : List ContactRow
  nextCallId : Nat
  nextContactId : Nat
  nextTime : Nat
  today : String
deriving DecidableEq, Repr

/-- ASCII lower-casing of a character, as SQLite `LOWER()` performs. -/
def lowerChar (c : Char) : Char :=
  if 65 ≤ c.toNat ∧ c.toNat ≤ 90 then Char.ofNat (c.toNat + 32) else c

/-- ASCII upper-casing of a character (Python `str.upper` on ASCII data). -/
def upperChar (c : Char) : Char :=
  if 97 ≤ c.toNat ∧ c.toNat ≤ 122 then Char.ofNat (c.toNat - 32) else c

/-- `LOWER(name)` as used in the case-insensitive existence check. -/
def lower (s : String) : String := String.mk (s.data.map lowerChar)

/-- `.upper()` as applied by the handlers to the submitted outcome token. -/
def upper (s : String) : String := String.mk (s.data.map upperChar)

/-- Lexicographic comparison of ISO date strings (and of names), as SQLite
compares TEXT columns.  Defined on the character lists so that it is fully
computable; it coincides with the library order on `String`. -/
def sLt (a b : String) : Prop := a.data < b.data

instance : DecidableRel sLt := fun a b => by unfold sLt; infer_instance

/-- Non-strict version of `sLt`. -/
def sLe (a b : String) : Prop := a.data ≤ b.data

instance : DecidableRel sLe := fun a b => by unfold sLe; infer_instance

/-- The larger of two TEXT values (for the `MAX(c.date)` aggregate). -/
def dmax (a b : String) : String := if a.data < b.data then b else a

/-- Whitespace test for the Python `str.strip` model. -/
def isSpaceChar (c : Char) : Bool :=
  decide (c = ' ') || decide (c = '\t') || decide (c = '\n') || decide (c = '\r')

/-- Python `str.strip()`: drop leading and trailing whitespace. -/
def strip (s : String) : String :=
  String.mk (((s.data.dropWhile isSpaceChar).reverse.dropWhile isSpaceChar).reverse)

/-- The outcome tokens accepted by the handlers for new writes. -/
def validResp (r : String) : Prop :=
  r = "A" ∨ r = "B" ∨ r = "C" ∨ r = "NA" ∨ r = "DNP"

instance : DecidablePred validResp := fun r => by unfold validResp; infer_instance

/-- `k` is at most as recent as `k'` in the `ORDER BY date DESC, created_at
DESC` ordering (date first, creation timestamp as tiebreak). -/
def recentLe (k k' : CallRow) : Prop :=
  sLt k.date k'.date ∨ (k.date = k'.date ∧ k.created_at ≤ k'.created_at)

instance : DecidableRel recentLe := fun a b => by unfold recentLe; infer_instance

/-- Keep the strictly more recent of two call rows (first argument wins
ties, a deterministic refinement of SQLite `LIMIT 1`). -/
def pickLater (a c : CallRow) : CallRow :=
  if sLt a.date c.date ∨ (a.date = c.date ∧ a.created_at < c.created_at) then c else a

/-- All calls for a given contact name (exact string match, as the SQL
`calls.name = c.name` join condition). -/
def callsFor (calls : List CallRow) (n : String) : List CallRow :=
  calls.filter (fun k => decide (k.name = n))

/-- `SELECT ... FROM calls WHERE name = n ORDER BY date DESC, created_at
DESC LIMIT 1`: the most recent call for a name, if any. -/
def latestCall (calls : List CallRow) (n : String) : Option CallRow :=
  match callsFor calls n with
  | [] => none
  | h :: t => some (t.foldl pickLater h)

/-- `EXISTS (SELECT 1 FROM calls WHERE name = n AND date = d)`. -/
def hasCallOn (calls : List CallRow) (n d : String) : Bool :=
  calls.any (fun k => decide (k.name = n) && decide (k.date = d))

/-- `NOT EXISTS (SELECT 1 FROM calls WHERE calls.name = c.name)`. -/
def neverCalled (calls : List CallRow) (n : String) : Bool :=
  decide (callsFor calls n = [])

/-- The most recent call for the name has outcome `DNP` (the scalar
subquery comparison `(...) = 'DNP'`; `NULL` when there are no calls, which
does not satisfy the comparison). -/
def lastIsDNP (calls : List CallRow) (n : String) : Bool :=
  decide ((latestCall calls n).map CallRow.response = some "DNP")

/-! ## `database.get_today_stats` -/

/-- The dictionary returned by `get_today_stats`: the six outcome keys, the
grand total and the successful (A+B+C) count, always present. -/
structure Stats where
  A : Nat
  B : Nat
  C : Nat
  NA : Nat
  DNP : Nat
  CATCHUP : Nat
  total : Nat
  successful : Nat
deriving DecidableEq, Repr

/-- Count of calls on a date with a given response. -/
def countResp (calls : List CallRow) (d r : String) : Nat :=
  calls.countP (fun k => decide (k.date = d) && decide (k.response = r))

/-- Count of a date's calls whose response is one of A, B, C. -/
def succOn (calls : List CallRow) (d : String) : Nat :=
  calls.countP (fun k => decide (k.date = d) &&
    (decide (k.response = "A") || decide (k.response = "B") || decide (k.response = "C")))

/-- `database.get_today_stats`: per-response counts for the date, `total`
accumulated over every response group of that date, `successful` over the
A/B/C groups. -/
def get_today_stats (db : DB) (d : String) : Stats :=
  { A := countResp db.calls d "A"
    B := countResp db.calls d "B"
    C := countResp db.calls d "C"
    NA := countResp db.calls d "NA"
    DNP := countResp db.calls d "DNP"
    CATCHUP := countResp db.calls d "CATCHUP"
    total := (db.calls.filter (fun k => decide (k.date = d))).length
    successful := succOn db.calls d }

/-- `database.get_daily_target`. -/
def get_daily_target (db : DB) (d : String) : Option Int :=
  (db.targets.find? (fun p => decide (p.1 = d))).map (fun p => p.2)

/-- `database.set_daily_target` (`INSERT OR REPLACE`). -/
def set_daily_target (db : DB) (t : Int) (d : String) : DB :=
  { db with targets := (db.targets.filter (fun p => !decide (p.1 = d))) ++ [(d, t)] }

/-! ## `database.add_contact` and its existence checks -/

/-- `contact_exists_for_date`: exact (case-sensitive) name match for the
given date. -/
def contact_exists_for_date (db : DB) (n d : String) : Bool :=
  db.contacts.any (fun c => decide (c.name = n) && decide (c.date = d))

/-- `contact_exists_anywhere`: case-insensitive name match over every
date (`LOWER(name) = LOWER(?)`). -/
def contact_exists_anywhere (db : DB) (n : String) : Bool :=
  db.contacts.any (fun c => decide (lower c.name = lower n))

/-- `database.add_contact`: per-date exact-name check, then (unless
skipped) the global case-insensitive check, then insert preserving casing
and return the fresh id. -/
def add_contact (db : DB) (n d : String) (skip_global_check : Bool) :
    Except String (DB × Nat) :=
  if contact_exists_for_date db n d then
    .error ("Contact " ++ n ++ " already in today" ++ "s list")
  else if !skip_global_check && contact_exists_anywhere db n then
    .error ("Contact " ++ n ++ " already exists")
  else
    .ok ({ db with
            contacts := db.contacts ++ [⟨db.nextContactId, n, d, db.nextTime⟩]
            nextContactId := db.nextContactId + 1
            nextTime := db.nextTime + 1 },
         db.nextContactId)

/-- `database.add_call`: unconditional insert returning the fresh id. -/
def add_call (db : DB) (n r d : String) : DB × Nat :=
  ({ db with
      calls := db.calls ++ [⟨db.nextCallId, n, r, d, db.nextTime⟩]
      nextCallId := db.nextCallId + 1
      nextTime := db.nextTime + 1 },
   db.nextCallId)

/-! ## `database.get_contacts_for_date` -/

/-- One output row of `get_contacts_for_date`. -/
structure ContactView where
  id : Nat
  name : String
  added_date : String
  has_call_today : Bool
deriving DecidableEq, Repr

/-- The `WHERE` clause of `get_contacts_for_date`, evaluated on one
contact row. -/
def rowCond (db : DB) (t : String) (c : ContactRow) : Bool :=
  decide (c.date = t)
  || (decide (sLt c.date t) && neverCalled db.calls c.name)
  || (decide (sLt c.date t) && lastIsDNP db.calls c.name)
  || (decide (sLt c.date t) && hasCallOn db.calls c.name t)

/-- The contact rows passing the `WHERE` clause (filtered before the
`GROUP BY`). -/
def matchingRows (db : DB) (t : String) : List ContactRow :=
  db.contacts.filter (rowCond db t)

/-- A name's group among the matching rows. -/
def groupFor (rows : List ContactRow) (n : String) : List ContactRow :=
  rows.filter (fun c => decide (c.name = n))

/-- `MAX(c.id)` over a group (the `CASE` in the query is `c.id` in both
branches). -/
def maxIdOf (rows : List ContactRow) : Nat :=
  (rows.map ContactRow.id).foldl max 0

/-- `MAX(c.date)` over a group. -/
def maxDateOf (rows : List ContactRow) : String :=
  match rows with
  | [] => ""
  | h :: t => t.foldl (fun acc c => dmax acc c.date) h.date

/-- `MIN(c.created_at)` over a group (the second sort key). -/
def minCreatedOf (rows : List ContactRow) : Nat :=
  match rows with
  | [] => 0
  | h :: t => t.foldl (fun acc c => min acc c.created_at) h.created_at

/-- The aggregated output row for one name. -/
def contactView (db : DB) (t : String) (rows : List ContactRow) (n : String) :
    ContactView :=
  ⟨maxIdOf (groupFor rows n), n, maxDateOf (groupFor rows n),
   hasCallOn db.calls n t⟩

/-- Sort rank of the first `ORDER BY` key: `has_call_today DESC`. -/
def hctRank (v : ContactView) : Nat := if v.has_call_today then 0 else 1

/-- The `ORDER BY has_call_today DESC, MIN(c.created_at) ASC` ordering on
output rows (non-strict, so ties in the key are unconstrained). -/
def cfdRel (db : DB) (t : String) (a b : ContactView) : Prop :=
  hctRank a < hctRank b ∨
    (hctRank a = hctRank b ∧
      minCreatedOf (groupFor (matchingRows db t) a.name) ≤
        minCreatedOf (groupFor (matchingRows db t) b.name))

instance (db : DB) (t : String) : DecidableRel (cfdRel db t) := fun a b => by
  unfold cfdRel; infer_instance

/-- `database.get_contacts_for_date`: filter, group by name, aggregate,
sort. -/
def get_contacts_for_date (db : DB) (t : String) : List ContactView :=
  let rows := matchingRows db t
  let names := (rows.map ContactRow.name).dedup
  List.insertionSort (cfdRel db t) (names.map (contactView db t rows))

/-! ## `database.get_all_contacts_summary` -/

/-- One output row of `get_all_contacts_summary`. -/
structure SummaryRow where
  id : Nat
  name : String
  added_date : String
  latest_response : Option String
  last_called_date : Option String
  dnp_count : Nat
  display_response : String
deriving DecidableEq, Repr

/-- The representative contact row SQLite picks for a `GROUP BY c.name`
group (an arbitrary but deterministic choice; irrelevant to the verified
properties). -/
def reprContact (contacts : List ContactRow) (n : String) : ContactRow :=
  match contacts.find? (fun c => decide (c.name = n)) with
  | some c => c
  | none => ⟨0, n, "", 0⟩

/-- Total DNP calls ever made to a name. -/
def dnpCountFor (calls : List CallRow) (n : String) : Nat :=
  calls.countP (fun k => decide (k.name = n) && decide (k.response = "DNP"))

/-- The summary row built for one distinct contact name: latest call (via
the `ROW_NUMBER` window, `rn = 1`), DNP total, and the `'UN'` sentinel when
no call exists. -/
def summaryRow (db : DB) (n : String) : SummaryRow :=
  let c := reprContact db.contacts n
  match latestCall db.calls n with
  | none => ⟨c.id, n, c.date, none, none, dnpCountFor db.calls n, "UN"⟩
  | some k =>
      ⟨c.id, n, c.date, some k.response, some k.date, dnpCountFor db.calls n,
       k.response⟩

/-- First `ORDER BY` key: `CASE WHEN latest.response IS NULL THEN 1 ELSE 0
END` (un-attempted rows last). -/
def sumRank (v : SummaryRow) : Nat :=
  match v.latest_response with
  | none => 1
  | some _ => 0

/-- Second `ORDER BY` key: `latest.date` (compared descending; `NULL`
collapses to the default, uniform within the un-attempted group). -/
def sumDate (v : SummaryRow) : String := v.last_called_date.getD ""

/-- The summary ordering: un-attempted last, then last-called date
descending, ties ascending by name. -/
def sumRel (a b : SummaryRow) : Prop :=
  sumRank a < sumRank b ∨
    (sumRank a = sumRank b ∧
      (sLt (sumDate b) (sumDate a) ∨
        (sumDate b = sumDate a ∧ sLe a.name b.name)))

instance : DecidableRel sumRel := fun a b => by unfold sumRel; infer_instance

/-- `database.get_all_contacts_summary`: one row per distinct contact
name, sorted, then optionally filtered on the display response. -/
def get_all_contacts_summary (db : DB) (filters : Option (List String)) :
    List SummaryRow :=
  let names := (db.contacts.map ContactRow.name).dedup
  let base := List.insertionSort sumRel (names.map (summaryRow db))
  match filters with
  | none => base
  | some fs =>
      if fs = [] then base
      else base.filter (fun r => decide (r.display_response ∈ fs))

/-! ## `database.get_month_achievements` -/

/-- Zero-padding to two digits (`{month:02d}`). -/
def pad2 (n : Nat) : String :=
  if n < 10 then "0" ++ toString n else toString n

/-- Zero-padding to four digits (`{year:04d}`). -/
def pad4 (n : Nat) : String :=
  if n < 10 then "000" ++ toString n
  else if n < 100 then "00" ++ toString n
  else if n < 1000 then "0" ++ toString n
  else toString n

/-- The inclusive lower bound `f"{year:04d}-{month:02d}-01"`. -/
def monthStart (y m : Nat) : String := pad4 y ++ "-" ++ pad2 m ++ "-01"

/-- The exclusive upper bound: first day of the next month, rolling over
to January of the next year after December. -/
def monthEnd (y m : Nat) : String :=
  if m = 12 then monthStart (y + 1) 1 else monthStart y (m + 1)

/-- Count of successful (A/B/C) calls on date `d`, restricted to the
month's range as pulled by the grouped query. -/
def monthSuccessful (calls : List CallRow) (s e d : String) : Nat :=
  calls.countP (fun k =>
    decide (sLe s k.date) && decide (sLt k.date e) && decide (k.date = d) &&
    (decide (k.response = "A") || decide (k.response = "B") ||
      decide (k.response = "C")))

/-- `database.get_month_achievements`: for each target row in the month's
range, whether the successful count reached the target. -/
def get_month_achievements (db : DB) (y m : Nat) : List (String × Bool) :=
  let s := monthStart y m
  let e := monthEnd y m
  (db.targets.filter (fun p => decide (sLe s p.1) && decide (sLt p.1 e))).map
    (fun p => (p.1, decide ((p.2 : Int) ≤ (monthSuccessful db.calls s e p.1 : Int))))

/-! ## `app.get_encouraging_message` -/

/-- The message dictionary returned to the client. -/
structure Message where
  text : String
  mtype : String
  emoji : String
deriving DecidableEq, Repr

/-- `app.get_encouraging_message`: pure policy mapping outcome and
progress to a message. -/
def get_encouraging_message (response : String) (successful_count target : Int) :
    Message :=
  let remaining := target - successful_count
  if (response = "A" ∨ response = "B" ∨ response = "C") ∧ remaining = 1 then
    ⟨"You\'re on Rampage, let\'s get it done!", "rampage", "⚡🔥"⟩
  else if response = "A" ∨ response = "B" ∨ response = "C" then
    if remaining ≤ 0 then
      ⟨"Target achieved! Keep the momentum going!", "success", "🎉🏆"⟩
    else
      ⟨"Great, " ++ toString remaining ++ " to go!", "success", "🎉"⟩
  else if response = "NA" then
    ⟨"Call this guy next time, let\'s go for next!", "followup", "🔥"⟩
  else
    ⟨"Someone\'s waiting for your call. Let\'s reach till there!", "retry", "🔥🔥"⟩

/-! ## The Flask handlers (`app.py`) -/

/-- The parts of a handler's JSON response the claims are about: HTTP
status, the error string of a failure body, and the success-payload fields
`already_exists`, `added`, `skipped`, `message`. -/
structure Resp where
  status : Nat
  error : Option String
  already_exists : Bool
  added : List String
  skipped : List String
  message : Option Message
deriving DecidableEq, Repr

/-- A plain `{success: true}` response. -/
def okResp : Resp := ⟨200, none, false, [], [], none⟩

/-- A structured JSON error response. -/
def errResp (code : Nat) (msg : String) : Resp := ⟨code, some msg, false, [], [], none⟩

/-- The mutating endpoints of `app.py`. -/
inductive Op where
  | setTarget (target : Int) (date : String)
  | addCall (name response date : String)
  | deleteCall (call_id : Nat)
  | updateCall (call_id : Nat) (response date : String)
  | addContact (name date : String)
  | deleteContact (contact_id : Nat)
  | addToToday (name : String)
  | addMultipleToToday (names : List String)
deriving DecidableEq, Repr

/-- The loop body of `/add-multiple-to-today`: strip each name, skip
blanks, attempt the add with the global check skipped, and collect the
added and skipped names in order. -/
def addMultipleAux (db : DB) : List String → DB × List String × List String
  | [] => (db, [], [])
  | n :: rest =>
      let n := strip n
      if n = "" then addMultipleAux db rest
      else
        match add_contact db n db.today true with
        | .ok p =>
            let r := addMultipleAux p.1 rest
            (r.1, n :: r.2.1, r.2.2)
        | .error _ =>
            let r := addMultipleAux db rest
            (r.1, r.2.1, n :: r.2.2)

/-- The mutating request handlers of `app.py`, as a state transformer on
the store returning the response. -/
def handle (db : DB) : Op → DB × Resp
  | .setTarget t d =>
      if t < 1 then (db, errResp 400 "Target must be at least 1")
      else (set_daily_target db t d, okResp)
  | .addCall name response d =>
      let name := strip name
      let response := upper response
      if name = "" then (db, errResp 400 "Name is required")
      else if ¬ validResp response then (db, errResp 400 "Invalid response type")
      else
        let db' := (add_call db name response d).1
        let stats := get_today_stats db' d
        let target := (get_daily_target db' d).getD 0
        (db', { okResp with
                 message := some (get_encouraging_message response
                   (stats.successful : Int) target) })
  | .deleteCall cid =>
      if cid = 0 then (db, errResp 400 "Call ID is required")
      else if db.calls.any (fun k => decide (k.id = cid)) then
        ({ db with calls := db.calls.filter (fun k => !decide (k.id = cid)) }, okResp)
      else (db, errResp 404 "Call not found")
  | .updateCall cid response d =>
      let response := upper response
      if cid = 0 then (db, errResp 400 "Call ID is required")
      else if ¬ validResp response then (db, errResp 400 "Invalid response type")
      else if db.calls.any (fun k => decide (k.id = cid)) then
        let db' := { db with
          calls := db.calls.map (fun k =>
            if k.id = cid then { k with response := response } else k) }
        let stats := get_today_stats db' d
        let target := (get_daily_target db' d).getD 0
        (db', { okResp with
                 message := some (get_encouraging_message response
                   (stats.successful : Int) target) })
      else (db, errResp 404 "Call not found")
  | .addContact name d =>
      let name := strip name
      if name = "" then (db, errResp 400 "Name is required")
      else
        match add_contact db name d false with
        | .ok p => (p.1, okResp)
        | .error e => (db, errResp 400 e)
  | .deleteContact cid =>
      if cid = 0 then (db, errResp 400 "Contact ID is required")
      else if db.contacts.any (fun c => decide (c.id = cid)) then
        ({ db with contacts := db.contacts.filter (fun c => !decide (c.id = cid)) },
         okResp)
      else (db, errResp 404 "Contact not found")
  | .addToToday name =>
      let name := strip name
      if name = "" then (db, errResp 400 "Name is required")
      else
        match add_contact db name db.today true with
        | .ok p => (p.1, okResp)
        | .error _ => (db, { okResp with already_exists := true })
  | .addMultipleToToday names =>
      if names = [] then (db, errResp 400 "Names are required")
      else
        let r := addMultipleAux db names
        (r.1, { okResp with added := r.2.1, skipped := r.2.2 })

/-! ## Basic lemmas about the order on TEXT values -/

/-- `sLt` coincides with the library order on `String`. -/
theorem sLt_iff_lt (a b : String) : sLt a b ↔ a < b :=
  Iff.symm String.lt_iff_toList_lt

theorem sLe_refl (a : String) : sLe a a := le_refl _

theorem sLe_trans {a b c : String} (h1 : sLe a b) (h2 : sLe b c) : sLe a c :=
  le_trans h1 h2

theorem sLe_total (a b : String) : sLe a b ∨ sLe b a := le_total _ _

theorem sLt_trans {a b c : String} (h1 : sLt a b) (h2 : sLt b c) : sLt a c :=
  lt_trans h1 h2

theorem sLt_of_sLt_of_eq {a b c : String} (h1 : sLt a b) (h2 : b = c) : sLt a c :=
  h2 ▸ h1

theorem dmax_cases (a b : String) : dmax a b = a ∨ dmax a b = b := by
  unfold dmax; split <;> simp

theorem sLe_dmax_left (a b : String) : sLe a (dmax a b) := by
  unfold dmax sLe; split
  · exact le_of_lt (by assumption)
  · exact le_refl _

theorem sLe_dmax_right (a b : String) : sLe b (dmax a b) := by
  unfold dmax sLe; split
  · exact le_refl _
  · exact not_lt.mp (by assumption)

/-! ## The most-recent-call selection -/

theorem recentLe_refl (a : CallRow) : recentLe a a := Or.inr ⟨rfl, le_refl _⟩

theorem recentLe_trans {a b c : CallRow} (h1 : recentLe a b) (h2 : recentLe b c) :
    recentLe a c := by
  unfold recentLe at *
  rcases h1 with h1 | ⟨e1, l1⟩ <;> rcases h2 with h2 | ⟨e2, l2⟩
  · exact Or.inl (sLt_trans h1 h2)
  · exact Or.inl (sLt_of_sLt_of_eq h1 e2)
  · exact Or.inl (e1 ▸ h2)
  · exact Or.inr ⟨e1.trans e2, le_trans l1 l2⟩

theorem pickLater_spec (a c : CallRow) :
    (pickLater a c = a ∨ pickLater a c = c) ∧
      recentLe a (pickLater a c) ∧ recentLe c (pickLater a c) := by
  unfold pickLater
  split
  next hlt =>
    refine ⟨Or.inr rfl, ?_, recentLe_refl c⟩
    rcases hlt with h | ⟨e, l⟩
    · exact Or.inl h
    · exact Or.inr ⟨e, le_of_lt l⟩
  next hlt =>
    push_neg at hlt
    refine ⟨Or.inl rfl, recentLe_refl a, ?_⟩
    rcases lt_trichotomy c.date.data a.date.data with h | h | h
    · exact Or.inl h
    · have hd : c.date = a.date := String.toList_inj.mp h
      have := hlt.2 hd.symm
      exact Or.inr ⟨hd, by omega⟩
    · exact absurd h hlt.1

theorem foldl_pickLater_spec (t : List CallRow) (h : CallRow) :
    t.foldl pickLater h ∈ h :: t ∧ ∀ x ∈ h :: t, recentLe x (t.foldl pickLater h) := by
  induction t generalizing h with
  | nil => exact ⟨List.mem_singleton_self h, by simpa using recentLe_refl h⟩
  | cons c t ih =>
    obtain ⟨hmem, hb⟩ := ih (pickLater h c)
    obtain ⟨hor, hra, hrc⟩ := pickLater_spec h c
    have hp : recentLe (pickLater h c) (t.foldl pickLater (pickLater h c)) :=
      hb _ (List.mem_cons_self _ _)
    constructor
    · simp only [List.foldl_cons]
      rcases List.mem_cons.mp hmem with h1 | h1
      · rcases hor with e | e
        · rw [h1, e]; exact List.mem_cons_self _ _
        · rw [h1, e]; exact List.mem_cons_of_mem _ (List.mem_cons_self _ _)
      · exact List.mem_cons_of_mem _ (List.mem_cons_of_mem _ h1)
    · intro x hx
      simp only [List.foldl_cons]
      rcases List.mem_cons.mp hx with rfl | hx
      · exact recentLe_trans hra hp
      · rcases List.mem_cons.mp hx with rfl | hx
        · exact recentLe_trans hrc hp
        · exact hb _ (List.mem_cons_of_mem _ hx)

theorem mem_callsFor {calls : List CallRow} {n : String} {k : CallRow} :
    k ∈ callsFor calls n ↔ k ∈ calls ∧ k.name = n := by
  unfold callsFor
  rw [List.mem_filter]
  simp

theorem callsFor_eq_nil_iff {calls : List CallRow} {n : String} :
    callsFor calls n = [] ↔ ∀ k ∈ calls, k.name ≠ n := by
  unfold callsFor
  rw [List.filter_eq_nil_iff]
  simp

theorem latestCall_eq_none_iff {calls : List CallRow} {n : String} :
    latestCall calls n = none ↔ ∀ k ∈ calls, k.name ≠ n := by
  unfold latestCall
  rw [← callsFor_eq_nil_iff]
  cases h : callsFor calls n <;> simp

theorem latestCall_spec {calls : List CallRow} {n : String} {k : CallRow}
    (h : latestCall calls n = some k) :
    k ∈ calls ∧ k.name = n ∧ ∀ k' ∈ calls, k'.name = n → recentLe k' k := by
  unfold latestCall at h
  cases hc : callsFor calls n with
  | nil => rw [hc] at h; cases h
  | cons a t =>
    rw [hc] at h
    injection h with h
    obtain ⟨hmem, hb⟩ := foldl_pickLater_spec t a
    rw [h] at hmem hb
    have hmem' : k ∈ callsFor calls n := by rw [hc]; exact hmem
    have hk := mem_callsFor.mp hmem'
    refine ⟨hk.1, hk.2, fun k' hk' hn => ?_⟩
    have hkk : k' ∈ callsFor calls n := mem_callsFor.mpr ⟨hk', hn⟩
    rw [hc] at hkk
    exact hb _ hkk

/-! ## Membership forms of the Bool predicates -/

theorem hasCallOn_iff {calls : List CallRow} {n d : String} :
    hasCallOn calls n d = true ↔ ∃ k ∈ calls, k.name = n ∧ k.date = d := by
  unfold hasCallOn
  rw [List.any_eq_true]
  simp

theorem neverCalled_iff {calls : List CallRow} {n : String} :
    neverCalled calls n = true ↔ ∀ k ∈ calls, k.name ≠ n := by
  unfold neverCalled
  rw [decide_eq_true_eq]
  exact callsFor_eq_nil_iff

theorem lastIsDNP_iff {calls : List CallRow} {n : String} :
    lastIsDNP calls n = true ↔ (latestCall calls n).map CallRow.response = some "DNP" := by
  unfold lastIsDNP
  rw [decide_eq_true_eq]

theorem rowCond_iff {db : DB} {t : String} {c : ContactRow} :
    rowCond db t c = true ↔
      c.date = t ∨
        (sLt c.date t ∧
          (neverCalled db.calls c.name = true ∨ lastIsDNP db.calls c.name = true ∨
            hasCallOn db.calls c.name t = true)) := by
  unfold rowCond
  simp only [Bool.or_eq_true, Bool.and_eq_true, decide_eq_true_eq]
  tauto

/-! ## The name-level view of `get_contacts_for_date` -/

theorem contactView_name (db : DB) (t : String) (rows : List ContactRow)
    (m : String) : (contactView db t rows m).name = m := rfl

theorem exists_name_map {n : String} {names : List String}
    {f : String → ContactView} (hf : ∀ m, (f m).name = m) :
    (∃ v ∈ names.map f, v.name = n) ↔ n ∈ names := by
  simp only [List.mem_map]
  constructor
  · rintro ⟨v, ⟨m, hm, rfl⟩, h⟩
    rw [hf] at h
    exact h ▸ hm
  · intro h
    exact ⟨f n, ⟨n, h, rfl⟩, hf n⟩

theorem exists_name_map_sum {n : String} {names : List String}
    {f : String → SummaryRow} (hf : ∀ m, (f m).name = m) :
    (∃ v ∈ names.map f, v.name = n) ↔ n ∈ names := by
  simp only [List.mem_map]
  constructor
  · rintro ⟨v, ⟨m, hm, rfl⟩, h⟩
    rw [hf] at h
    exact h ▸ hm
  · intro h
    exact ⟨f n, ⟨n, h, rfl⟩, hf n⟩

theorem mem_names_cfd {db : DB} {t n : String} :
    (∃ v ∈ get_contacts_for_date db t, v.name = n) ↔
      ∃ c ∈ db.contacts, c.name = n ∧ rowCond db t c = true := by
  unfold get_contacts_for_date
  simp only [List.mem_insertionSort]
  rw [exists_name_map (contactView_name db t (matchingRows db t))]
  rw [List.mem_dedup]
  unfold matchingRows
  simp only [List.mem_map, List.mem_filter]
  constructor
  · rintro ⟨c, ⟨hc, hcond⟩, hn⟩
    exact ⟨c, hc, hn, hcond⟩
  · rintro ⟨c, hc, hn, hcond⟩
    exact ⟨c, ⟨hc, hcond⟩, hn⟩

/-! ## Concrete stores for the scenario parts of the claims -/

/-- A contact registered on day 1, no calls logged yet. -/
def dayOneDB : DB :=
  ⟨[], [], [⟨1, "x", "2024-01-01", 0⟩], 1, 2, 1, "2024-01-01"⟩

/-- The same contact after a call with outcome A was logged on day 2. -/
def dayTwoDB : DB :=
  ⟨[], [⟨1, "x", "A", "2024-01-02", 1⟩], [⟨1, "x", "2024-01-01", 0⟩], 2, 2, 2,
   "2024-01-02"⟩

/-- C1: a name appears in `contactsForDate(D)` iff some contact row with
that name is dated exactly `D`, or some row with that name is dated earlier
than `D` and the name was never called, or its most recent call (date
descending, then creation-time descending) has outcome DNP, or it has a
call dated exactly `D`.  In particular a contact registered on day 1 with
no calls appears on day 2, and after a non-DNP call on day 2 it no longer
appears on day 3. -/
theorem C1_contacts_for_date_selection :
    (∀ (db : DB) (t n : String),
      (∃ v ∈ get_contacts_for_date db t, v.name = n) ↔
        ((∃ c ∈ db.contacts, c.name = n ∧ c.date = t) ∨
         (∃ c ∈ db.contacts, c.name = n ∧ sLt c.date t ∧
           ((∀ k ∈ db.calls, k.name ≠ n) ∨
            (latestCall db.calls n).map CallRow.response = some "DNP" ∨
            (∃ k ∈ db.calls, k.name = n ∧ k.date = t)))))
    ∧ (∃ v ∈ get_contacts_for_date dayOneDB "2024-01-02", v.name = "x")
    ∧ (¬ ∃ v ∈ get_contacts_for_date dayTwoDB "2024-01-03", v.name = "x") := by
  refine ⟨?_, by decide, by decide⟩
  intro db t n
  rw [mem_names_cfd]
  constructor
  · rintro ⟨c, hc, hn, hcond⟩
    rcases rowCond_iff.mp hcond with h | ⟨hlt, h⟩
    · exact Or.inl ⟨c, hc, hn, h⟩
    · refine Or.inr ⟨c, hc, hn, hlt, ?_⟩
      rw [hn] at h
      rcases h with h | h | h
      · exact Or.inl (neverCalled_iff.mp h)
      · exact Or.inr (Or.inl (lastIsDNP_iff.mp h))
      · exact Or.inr (Or.inr (hasCallOn_iff.mp h))
  · rintro (⟨c, hc, hn, hd⟩ | ⟨c, hc, hn, hlt, h⟩)
    · exact ⟨c, hc, hn, rowCond_iff.mpr (Or.inl hd)⟩
    · refine ⟨c, hc, hn, rowCond_iff.mpr (Or.inr ⟨hlt, ?_⟩)⟩
      rw [hn]
      rcases h with h | h | h
      · exact Or.inl (neverCalled_iff.mpr h)
      · exact Or.inr (Or.inl (lastIsDNP_iff.mpr h))
      · exact Or.inr (Or.inr (hasCallOn_iff.mpr h))

/-! ## `add_contact` and its duplicate checks (claim C2) -/

theorem contact_exists_for_date_iff {db : DB} {n d : String} :
    contact_exists_for_date db n d = true ↔
      ∃ c ∈ db.contacts, c.name = n ∧ c.date = d := by
  unfold contact_exists_for_date
  rw [List.any_eq_true]
  simp

theorem contact_exists_anywhere_iff {db : DB} {n : String} :
    contact_exists_anywhere db n = true ↔
      ∃ c ∈ db.contacts, lower c.name = lower n := by
  unfold contact_exists_anywhere
  rw [List.any_eq_true]
  simp

/-- Whether an `add_contact` call succeeded. -/
def exceptOk : Except String (DB × Nat) → Bool
  | .ok _ => true
  | .error _ => false

/-- Claim C2 as stated: a case-insensitive same-date duplicate always makes
`add_contact` fail, regardless of `skip_global_check`. -/
def claimC2Statement : Prop :=
  ∀ (db : DB) (n d : String) (skip : Bool),
    (∃ c ∈ db.contacts, lower c.name = lower n ∧ c.date = d) →
    ∃ e, add_contact db n d skip = .error e

/-- A store whose only contact is "bob", registered on 2024-01-02. -/
def dupDB : DB := ⟨[], [], [⟨1, "bob", "2024-01-02", 0⟩], 1, 2, 1, "2024-01-02"⟩

/-- C2 counterexample: with `skip_global_check` set, adding "BOB" on the
date where "bob" is registered succeeds, because the per-date check
compares names exactly (case-sensitively); the claimed case-insensitive
per-date rejection does not hold. -/
theorem C2_counterexample : ¬ claimC2Statement := by
  intro h
  obtain ⟨e, he⟩ := h dupDB "BOB" "2024-01-02" true
    ⟨⟨1, "bob", "2024-01-02", 0⟩, by decide, by decide, rfl⟩
  have hok : exceptOk (add_contact dupDB "BOB" "2024-01-02" true) = true := by decide
  rw [he] at hok
  exact absurd hok (by simp [exceptOk])

/-- C2 amended: `addContact` fails when a contact with exactly the same
name (case-sensitively) exists for the date; when `skipGlobalCheck` is
false it also fails when the same name exists case-insensitively for any
date; otherwise it appends a row preserving the given casing and returns
the fresh id. -/
theorem C2_amended_add_contact :
    ∀ (db : DB) (n d : String) (skip : Bool),
      (contact_exists_for_date db n d = true ↔
        ∃ c ∈ db.contacts, c.name = n ∧ c.date = d)
      ∧ (contact_exists_anywhere db n = true ↔
          ∃ c ∈ db.contacts, lower c.name = lower n)
      ∧ ((∃ c ∈ db.contacts, c.name = n ∧ c.date = d) →
          ∃ e, add_contact db n d skip = .error e)
      ∧ ((skip = false) → (∃ c ∈ db.contacts, lower c.name = lower n) →
          ∃ e, add_contact db n d skip = .error e)
      ∧ ((∀ c ∈ db.contacts, ¬ (c.name = n ∧ c.date = d)) →
          (skip = true ∨ ∀ c ∈ db.contacts, lower c.name ≠ lower n) →
          add_contact db n d skip =
            .ok ({ db with
                    contacts := db.contacts ++ [⟨db.nextContactId, n, d, db.nextTime⟩]
                    nextContactId := db.nextContactId + 1
                    nextTime := db.nextTime + 1 },
                 db.nextContactId)) := by
  intro db n d skip
  refine ⟨contact_exists_for_date_iff, contact_exists_anywhere_iff, ?_, ?_, ?_⟩
  · intro h
    unfold add_contact
    rw [if_pos (contact_exists_for_date_iff.mpr h)]
    exact ⟨_, rfl⟩
  · rintro rfl h
    unfold add_contact
    by_cases h1 : contact_exists_for_date db n d = true
    · rw [if_pos h1]
      exact ⟨_, rfl⟩
    · rw [if_neg h1]
      have h2 : (!false && contact_exists_anywhere db n) = true := by
        simp [contact_exists_anywhere_iff.mpr h]
      rw [if_pos h2]
      exact ⟨_, rfl⟩
  · intro h1 h2
    unfold add_contact
    have hnot1 : ¬ contact_exists_for_date db n d = true := by
      rw [contact_exists_for_date_iff]
      rintro ⟨c, hc, hn, hd⟩
      exact h1 c hc ⟨hn, hd⟩
    rw [if_neg hnot1]
    have hnot2 : ¬ (!skip && contact_exists_anywhere db n) = true := by
      rcases h2 with rfl | h2
      · simp
      · intro hcontra
        rw [Bool.and_eq_true, contact_exists_anywhere_iff] at hcontra
        obtain ⟨-, c, hc, hl⟩ := hcontra
        exact h2 c hc hl
    rw [if_neg hnot2]

/-! ## Statistics (claim C6) -/

/-- The schema `CHECK` constraint on `calls.response`: every stored row
carries one of the six enum values. -/
def storedResp (r : String) : Prop :=
  r = "A" ∨ r = "B" ∨ r = "C" ∨ r = "NA" ∨ r = "DNP" ∨ r = "CATCHUP"

instance : DecidablePred storedResp := fun r => by unfold storedResp; infer_instance

theorem length_filter_eq_sum_counts (calls : List CallRow) (d : String)
    (hwf : ∀ k ∈ calls, storedResp k.response) :
    (calls.filter (fun k => decide (k.date = d))).length =
      countResp calls d "A" + countResp calls d "B" + countResp calls d "C" +
        countResp calls d "NA" + countResp calls d "DNP" +
        countResp calls d "CATCHUP" := by
  induction calls with
  | nil => simp [countResp]
  | cons k t ih =>
    have hk := hwf k (List.mem_cons_self _ _)
    specialize ih (fun x hx => hwf x (List.mem_cons_of_mem _ hx))
    unfold countResp at *
    by_cases hd : k.date = d
    · rcases hk with h | h | h | h | h | h <;>
        simp only [List.countP_cons, List.filter_cons, hd, h] <;>
        simp <;> omega
    · simp only [List.countP_cons, List.filter_cons]
      simp [hd]
      omega

theorem succOn_eq_sum (calls : List CallRow) (d : String) :
    succOn calls d =
      countResp calls d "A" + countResp calls d "B" + countResp calls d "C" := by
  induction calls with
  | nil => simp [succOn, countResp]
  | cons k t ih =>
    unfold succOn countResp at *
    simp only [List.countP_cons]
    by_cases hd : k.date = d
    · by_cases hA : k.response = "A"
      · simp [hd, hA]; omega
      · by_cases hB : k.response = "B"
        · simp [hd, hB]; omega
        · by_cases hC : k.response = "C"
          · simp [hd, hC]; omega
          · simp [hd, hA, hB, hC]; omega
    · simp [hd]; omega

/-- C6: the stats dictionary always carries all six outcome keys plus
`total` and `successful` (zero-filled when the date has no calls); each
outcome key counts that date's calls with that outcome; under the schema
constraint `total` is the sum of the six keys; and `successful` is
A+B+C. -/
theorem C6_stats_for_date :
    ∀ (db : DB) (d : String),
      ((get_today_stats db d).A = countResp db.calls d "A"
        ∧ (get_today_stats db d).B = countResp db.calls d "B"
        ∧ (get_today_stats db d).C = countResp db.calls d "C"
        ∧ (get_today_stats db d).NA = countResp db.calls d "NA"
        ∧ (get_today_stats db d).DNP = countResp db.calls d "DNP"
        ∧ (get_today_stats db d).CATCHUP = countResp db.calls d "CATCHUP")
      ∧ (get_today_stats db d).successful =
          (get_today_stats db d).A + (get_today_stats db d).B +
            (get_today_stats db d).C
      ∧ ((∀ k ∈ db.calls, storedResp k.response) →
          (get_today_stats db d).total =
            (get_today_stats db d).A + (get_today_stats db d).B +
              (get_today_stats db d).C + (get_today_stats db d).NA +
              (get_today_stats db d).DNP + (get_today_stats db d).CATCHUP)
      ∧ ((∀ k ∈ db.calls, k.date ≠ d) →
          get_today_stats db d = ⟨0, 0, 0, 0, 0, 0, 0, 0⟩) := by
  intro db d
  refine ⟨⟨rfl, rfl, rfl, rfl, rfl, rfl⟩, succOn_eq_sum db.calls d, ?_, ?_⟩
  · intro hwf
    exact length_filter_eq_sum_counts db.calls d hwf
  · intro hnone
    have hcount : ∀ r, countResp db.calls d r = 0 := by
      intro r
      unfold countResp
      rw [List.countP_eq_zero]
      intro k hk
      simp [hnone k hk]
    have hfilter : db.calls.filter (fun k => decide (k.date = d)) = [] := by
      rw [List.filter_eq_nil_iff]
      intro k hk
      simp [hnone k hk]
    have hsucc : succOn db.calls d = 0 := by
      unfold succOn
      rw [List.countP_eq_zero]
      intro k hk
      simp [hnone k hk]
    unfold get_today_stats
    rw [hfilter, hsucc]
    simp [hcount]

/-! ## The messaging policy (claims C8 and C10) -/

theorem gem_rampage {response : String} {s t : Int}
    (habc : response = "A" ∨ response = "B" ∨ response = "C") (h : t - s = 1) :
    get_encouraging_message response s t =
      ⟨"You\'re on Rampage, let\'s get it done!", "rampage", "⚡🔥"⟩ := by
  simp only [get_encouraging_message]
  rw [if_pos ⟨habc, h⟩]

theorem gem_achieved {response : String} {s t : Int}
    (habc : response = "A" ∨ response = "B" ∨ response = "C") (h : t - s ≤ 0) :
    get_encouraging_message response s t =
      ⟨"Target achieved! Keep the momentum going!", "success", "🎉🏆"⟩ := by
  simp only [get_encouraging_message]
  have hne : ¬ ((response = "A" ∨ response = "B" ∨ response = "C") ∧ t - s = 1) := by
    rintro ⟨-, h1⟩
    omega
  rw [if_neg hne, if_pos habc, if_pos h]

theorem gem_progress {response : String} {s t : Int}
    (habc : response = "A" ∨ response = "B" ∨ response = "C") (h : 0 < t - s)
    (h1 : t - s ≠ 1) :
    get_encouraging_message response s t =
      ⟨"Great, " ++ toString (t - s) ++ " to go!", "success", "🎉"⟩ := by
  simp only [get_encouraging_message]
  have hne : ¬ ((response = "A" ∨ response = "B" ∨ response = "C") ∧ t - s = 1) := by
    rintro ⟨-, h2⟩
    omega
  rw [if_neg hne, if_pos habc, if_neg (by omega)]

theorem gem_na {s t : Int} :
    get_encouraging_message "NA" s t =
      ⟨"Call this guy next time, let\'s go for next!", "followup", "🔥"⟩ := by
  simp only [get_encouraging_message]
  simp

theorem gem_dnp {s t : Int} :
    get_encouraging_message "DNP" s t =
      ⟨"Someone\'s waiting for your call. Let\'s reach till there!", "retry", "🔥🔥"⟩ := by
  simp only [get_encouraging_message]
  rw [if_neg (by simp), if_neg (by simp), if_neg (by simp)]

/-- C8: the messaging policy is a pure function of (outcome, successful
count, target): with `remaining = target - successful`, a successful
outcome gives Rampage at `remaining = 1`, the achieved message at
`remaining ≤ 0`, and otherwise the progress message whose text contains
the rendered value of `remaining`; NA gives the follow-up message and DNP
the retry message.  The three concrete instances of the claim are
included. -/
theorem C8_encouragement :
    (∀ (response : String) (s t : Int),
      ((response = "A" ∨ response = "B" ∨ response = "C") →
        ((t - s = 1 → get_encouraging_message response s t =
            ⟨"You\'re on Rampage, let\'s get it done!", "rampage", "⚡🔥"⟩)
          ∧ (t - s ≤ 0 → get_encouraging_message response s t =
              ⟨"Target achieved! Keep the momentum going!", "success", "🎉🏆"⟩)
          ∧ (t - s ≠ 1 → 0 < t - s →
              (get_encouraging_message response s t).mtype = "success"
                ∧ ∃ pre post, (get_encouraging_message response s t).text =
                    pre ++ toString (t - s) ++ post)))
        ∧ (response = "NA" → get_encouraging_message response s t =
            ⟨"Call this guy next time, let\'s go for next!", "followup", "🔥"⟩)
        ∧ (response = "DNP" → get_encouraging_message response s t =
            ⟨"Someone\'s waiting for your call. Let\'s reach till there!", "retry",
             "🔥🔥"⟩))
    ∧ get_encouraging_message "A" 4 5 =
        ⟨"You\'re on Rampage, let\'s get it done!", "rampage", "⚡🔥"⟩
    ∧ get_encouraging_message "A" 5 5 =
        ⟨"Target achieved! Keep the momentum going!", "success", "🎉🏆"⟩
    ∧ (get_encouraging_message "A" 3 5 = ⟨"Great, 2 to go!", "success", "🎉"⟩
        ∧ ∃ pre post, (get_encouraging_message "A" 3 5).text = pre ++ "2" ++ post) := by
  refine ⟨?_, by decide, by decide, by decide, "Great, ", " to go!", by decide⟩
  intro response s t
  refine ⟨?_, ?_, ?_⟩
  · intro habc
    refine ⟨gem_rampage habc, gem_achieved habc, ?_⟩
    intro h1 h0
    rw [gem_progress habc h0 h1]
    exact ⟨rfl, "Great, ", " to go!", rfl⟩
  · rintro rfl
    exact gem_na
  · rintro rfl
    exact gem_dnp

/-! ## Month achievements (claim C7) -/

theorem monthSuccessful_eq_succOn {calls : List CallRow} {s e d : String}
    (h1 : sLe s d) (h2 : sLt d e) :
    monthSuccessful calls s e d = succOn calls d := by
  unfold monthSuccessful succOn
  apply List.countP_congr
  intro k _
  by_cases hkd : k.date = d
  · simp [hkd, h1, h2]
  · simp [hkd]

/-- C7: `monthAchievements(year, month)` has an entry for a date exactly
when the date lies in the month range `[monthStart, monthEnd)` and a
target row exists for it; the entry is true iff the date's successful
(A/B/C) call count reaches the target; dates without a target row get no
entry; and for December the exclusive upper bound rolls over to January of
the following year. -/
theorem C7_month_achievements :
    ∀ (db : DB) (y m : Nat),
      (∀ (d : String) (b : Bool),
        (d, b) ∈ get_month_achievements db y m ↔
          ∃ tv : Int, (d, tv) ∈ db.targets ∧ sLe (monthStart y m) d ∧
            sLt d (monthEnd y m) ∧ b = decide (tv ≤ (succOn db.calls d : Int)))
      ∧ (∀ d : String, (∀ tv : Int, (d, tv) ∉ db.targets) →
          ∀ b, (d, b) ∉ get_month_achievements db y m)
      ∧ monthEnd y 12 = monthStart (y + 1) 1 := by
  intro db y m
  have hmain : ∀ (d : String) (b : Bool),
      (d, b) ∈ get_month_achievements db y m ↔
        ∃ tv : Int, (d, tv) ∈ db.targets ∧ sLe (monthStart y m) d ∧
          sLt d (monthEnd y m) ∧ b = decide (tv ≤ (succOn db.calls d : Int)) := by
    intro d b
    unfold get_month_achievements
    simp only [List.mem_map, List.mem_filter, Bool.and_eq_true, decide_eq_true_eq,
      Prod.mk.injEq]
    constructor
    · rintro ⟨⟨pd, pt⟩, ⟨hmem, hs, he⟩, hd, hb⟩
      dsimp only at hs he hd hb
      subst hd
      exact ⟨pt, hmem, hs, he, by rw [← hb, monthSuccessful_eq_succOn hs he]⟩
    · rintro ⟨tv, hmem, hs, he, hb⟩
      refine ⟨(d, tv), ⟨hmem, hs, he⟩, rfl, ?_⟩
      rw [hb, monthSuccessful_eq_succOn hs he]
  refine ⟨hmain, ?_, by simp [monthEnd]⟩
  intro d hno b hmem
  obtain ⟨tv, htv, -⟩ := (hmain d b).mp hmem
  exact hno tv htv

/-! ## Row-level facts about `get_contacts_for_date` (claim C4) -/

theorem foldl_dmax_spec (t : List String) (a : String) :
    t.foldl dmax a ∈ a :: t ∧ ∀ x ∈ a :: t, sLe x (t.foldl dmax a) := by
  induction t generalizing a with
  | nil => exact ⟨List.mem_singleton_self a, by simpa using sLe_refl a⟩
  | cons c t ih =>
    obtain ⟨hmem, hb⟩ := ih (dmax a c)
    have hd : sLe (dmax a c) (t.foldl dmax (dmax a c)) := hb _ (List.mem_cons_self _ _)
    constructor
    · simp only [List.foldl_cons]
      rcases List.mem_cons.mp hmem with h1 | h1
      · rcases dmax_cases a c with e | e
        · rw [h1, e]; exact List.mem_cons_self _ _
        · rw [h1, e]; exact List.mem_cons_of_mem _ (List.mem_cons_self _ _)
      · exact List.mem_cons_of_mem _ (List.mem_cons_of_mem _ h1)
    · intro x hx
      simp only [List.foldl_cons]
      rcases List.mem_cons.mp hx with rfl | hx
      · exact sLe_trans (sLe_dmax_left x c) hd
      · rcases List.mem_cons.mp hx with rfl | hx
        · exact sLe_trans (sLe_dmax_right a x) hd
        · exact hb _ (List.mem_cons_of_mem _ hx)

theorem foldl_min_spec (t : List Nat) (a : Nat) :
    t.foldl min a ∈ a :: t ∧ ∀ x ∈ a :: t, t.foldl min a ≤ x := by
  induction t generalizing a with
  | nil => simp
  | cons c t ih =>
    obtain ⟨hmem, hb⟩ := ih (min a c)
    have hd : t.foldl min (min a c) ≤ min a c := hb _ (List.mem_cons_self _ _)
    constructor
    · simp only [List.foldl_cons]
      rcases List.mem_cons.mp hmem with h1 | h1
      · rcases min_choice a c with e | e
        · rw [h1, e]; exact List.mem_cons_self _ _
        · rw [h1, e]; exact List.mem_cons_of_mem _ (List.mem_cons_self _ _)
      · exact List.mem_cons_of_mem _ (List.mem_cons_of_mem _ h1)
    · intro x hx
      simp only [List.foldl_cons]
      rcases List.mem_cons.mp hx with rfl | hx
      · exact le_trans hd (min_le_left x c)
      · rcases List.mem_cons.mp hx with rfl | hx
        · exact le_trans hd (min_le_right a x)
        · exact hb _ (List.mem_cons_of_mem _ hx)

theorem maxDateOf_spec (h : ContactRow) (t : List ContactRow) :
    (∃ c ∈ h :: t, c.date = maxDateOf (h :: t)) ∧
      ∀ c ∈ h :: t, sLe c.date (maxDateOf (h :: t)) := by
  have heq : maxDateOf (h :: t) = (t.map ContactRow.date).foldl dmax h.date := by
    unfold maxDateOf
    rw [List.foldl_map]
  obtain ⟨hmem, hb⟩ := foldl_dmax_spec (t.map ContactRow.date) h.date
  rw [← heq] at hmem hb
  constructor
  · rcases List.mem_cons.mp hmem with h1 | h1
    · exact ⟨h, List.mem_cons_self _ _, h1.symm⟩
    · obtain ⟨c, hc, hcd⟩ := List.mem_map.mp h1
      exact ⟨c, List.mem_cons_of_mem _ hc, hcd⟩
  · intro c hc
    rcases List.mem_cons.mp hc with rfl | hc
    · exact hb _ (List.mem_cons_self _ _)
    · exact hb _ (List.mem_cons_of_mem _ (List.mem_map_of_mem _ hc))

theorem minCreatedOf_spec (h : ContactRow) (t : List ContactRow) :
    (∃ c ∈ h :: t, c.created_at = minCreatedOf (h :: t)) ∧
      ∀ c ∈ h :: t, minCreatedOf (h :: t) ≤ c.created_at := by
  have heq : minCreatedOf (h :: t) = (t.map ContactRow.created_at).foldl min h.created_at := by
    unfold minCreatedOf
    rw [List.foldl_map]
  obtain ⟨hmem, hb⟩ := foldl_min_spec (t.map ContactRow.created_at) h.created_at
  rw [← heq] at hmem hb
  constructor
  · rcases List.mem_cons.mp hmem with h1 | h1
    · exact ⟨h, List.mem_cons_self _ _, h1.symm⟩
    · obtain ⟨c, hc, hcd⟩ := List.mem_map.mp h1
      exact ⟨c, List.mem_cons_of_mem _ hc, hcd⟩
  · intro c hc
    rcases List.mem_cons.mp hc with rfl | hc
    · exact hb _ (List.mem_cons_self _ _)
    · exact hb _ (List.mem_cons_of_mem _ (List.mem_map_of_mem _ hc))

theorem cfdRel_total (db : DB) (t : String) (a b : ContactView) :
    cfdRel db t a b ∨ cfdRel db t b a := by
  unfold cfdRel
  rcases lt_trichotomy (hctRank a) (hctRank b) with h | h | h
  · exact Or.inl (Or.inl h)
  · rcases Nat.le_total (minCreatedOf (groupFor (matchingRows db t) a.name))
      (minCreatedOf (groupFor (matchingRows db t) b.name)) with h2 | h2
    · exact Or.inl (Or.inr ⟨h, h2⟩)
    · exact Or.inr (Or.inr ⟨h.symm, h2⟩)
  · exact Or.inr (Or.inl h)

theorem cfdRel_trans (db : DB) (t : String) :
    ∀ a b c, cfdRel db t a b → cfdRel db t b c → cfdRel db t a c := by
  intro a b c h1 h2
  unfold cfdRel at *
  rcases h1 with h1 | ⟨e1, l1⟩ <;> rcases h2 with h2 | ⟨e2, l2⟩
  · exact Or.inl (lt_trans h1 h2)
  · exact Or.inl (e2 ▸ h1)
  · exact Or.inl (e1 ▸ h2)
  · exact Or.inr ⟨e1.trans e2, le_trans l1 l2⟩

theorem mem_groupFor {rows : List ContactRow} {n : String} {c : ContactRow} :
    c ∈ groupFor rows n ↔ c ∈ rows ∧ c.name = n := by
  unfold groupFor
  rw [List.mem_filter]
  simp

/-- C4: the rows of `contactsForDate` carry pairwise distinct names; each
row's `addedDate` is the maximum registration date among that name's
matching contact rows; `hasCallToday` holds iff a call with that name is
dated exactly the target date; and the list is sorted by the
has-call-today-first, then earliest-registration-time ordering. -/
theorem C4_contacts_for_date_rows :
    ∀ (db : DB) (t : String),
      ((get_contacts_for_date db t).map ContactView.name).Nodup
      ∧ (∀ v ∈ get_contacts_for_date db t,
          (∃ c ∈ matchingRows db t, c.name = v.name ∧ c.date = v.added_date)
          ∧ (∀ c ∈ matchingRows db t, c.name = v.name → sLe c.date v.added_date)
          ∧ (v.has_call_today = true ↔ ∃ k ∈ db.calls, k.name = v.name ∧ k.date = t))
      ∧ List.Sorted (cfdRel db t) (get_contacts_for_date db t) := by
  intro db t
  refine ⟨?_, ?_, ?_⟩
  · have hperm : List.Perm (get_contacts_for_date db t)
        (((matchingRows db t).map ContactRow.name).dedup.map
          (contactView db t (matchingRows db t))) :=
      List.perm_insertionSort _ _
    have hmapped := hperm.map ContactView.name
    rw [List.map_map] at hmapped
    have hcomp : ContactView.name ∘ contactView db t (matchingRows db t) = id := by
      funext m
      rfl
    rw [hcomp, List.map_id] at hmapped
    exact hmapped.nodup_iff.mpr (List.nodup_dedup _)
  · intro v hv
    simp only [get_contacts_for_date, List.mem_insertionSort] at hv
    obtain ⟨n, hn, rfl⟩ := List.mem_map.mp hv
    rw [List.mem_dedup] at hn
    obtain ⟨c0, hc0, hc0n⟩ := List.mem_map.mp hn
    have hc0g : c0 ∈ groupFor (matchingRows db t) n := mem_groupFor.mpr ⟨hc0, hc0n⟩
    cases hg : groupFor (matchingRows db t) n with
    | nil => rw [hg] at hc0g; cases hc0g
    | cons gh gt =>
      obtain ⟨⟨cm, hcm, hcmd⟩, hbound⟩ := maxDateOf_spec gh gt
      rw [← hg] at hcm hbound
      refine ⟨⟨cm, (mem_groupFor.mp hcm).1, (mem_groupFor.mp hcm).2, ?_⟩, ?_, ?_⟩
      · show cm.date = (contactView db t (matchingRows db t) n).added_date
        unfold contactView
        rw [hg]
        exact hg ▸ hcmd
      · intro c hc hcn
        show sLe c.date (contactView db t (matchingRows db t) n).added_date
        unfold contactView
        rw [hg]
        exact hg ▸ hbound c (mem_groupFor.mpr ⟨hc, hcn⟩)
      · show hasCallOn db.calls n t = true ↔ _
        exact hasCallOn_iff
  · haveI : IsTotal ContactView (cfdRel db t) := ⟨cfdRel_total db t⟩
    haveI : IsTrans ContactView (cfdRel db t) := ⟨cfdRel_trans db t⟩
    exact List.sorted_insertionSort _ _

/-! ## The all-contacts summary (claim C3) -/

theorem summaryRow_name (db : DB) (n : String) : (summaryRow db n).name = n := by
  unfold summaryRow
  cases latestCall db.calls n <;> rfl

theorem summaryRow_dnp (db : DB) (n : String) :
    (summaryRow db n).dnp_count = dnpCountFor db.calls n := by
  unfold summaryRow
  cases latestCall db.calls n <;> rfl

theorem summary_latest_spec (db : DB) (n : String) :
    ((summaryRow db n).latest_response = none ∧ ∀ k ∈ db.calls, k.name ≠ n)
    ∨ (∃ k ∈ db.calls, k.name = n ∧
        (summaryRow db n).latest_response = some k.response ∧
        (summaryRow db n).last_called_date = some k.date ∧
        ∀ k' ∈ db.calls, k'.name = n → recentLe k' k) := by
  unfold summaryRow
  cases h : latestCall db.calls n with
  | none => exact Or.inl ⟨rfl, latestCall_eq_none_iff.mp h⟩
  | some k =>
    obtain ⟨hk, hkn, hmax⟩ := latestCall_spec h
    exact Or.inr ⟨k, hk, hkn, rfl, rfl, hmax⟩

theorem sumRel_total (a b : SummaryRow) : sumRel a b ∨ sumRel b a := by
  unfold sumRel
  rcases lt_trichotomy (sumRank a) (sumRank b) with h | h | h
  · exact Or.inl (Or.inl h)
  · rcases lt_trichotomy (sumDate b).data (sumDate a).data with h2 | h2 | h2
    · exact Or.inl (Or.inr ⟨h, Or.inl h2⟩)
    · have hde : sumDate b = sumDate a := String.toList_inj.mp h2
      rcases le_total a.name.data b.name.data with h3 | h3
      · exact Or.inl (Or.inr ⟨h, Or.inr ⟨hde, h3⟩⟩)
      · exact Or.inr (Or.inr ⟨h.symm, Or.inr ⟨hde.symm, h3⟩⟩)
    · exact Or.inr (Or.inr ⟨h.symm, Or.inl h2⟩)
  · exact Or.inr (Or.inl h)

theorem sumRel_trans : ∀ a b c, sumRel a b → sumRel b c → sumRel a c := by
  intro a b c h1 h2
  unfold sumRel at *
  rcases h1 with h1 | ⟨e1, h1⟩ <;> rcases h2 with h2 | ⟨e2, h2⟩
  · exact Or.inl (lt_trans h1 h2)
  · exact Or.inl (e2 ▸ h1)
  · exact Or.inl (e1 ▸ h2)
  · refine Or.inr ⟨e1.trans e2, ?_⟩
    rcases h1 with h1 | ⟨d1, n1⟩ <;> rcases h2 with h2 | ⟨d2, n2⟩
    · exact Or.inl (sLt_trans h2 h1)
    · exact Or.inl (by rw [d2]; exact h1)
    · exact Or.inl (by rw [← d1]; exact h2)
    · exact Or.inr ⟨d2.trans d1, sLe_trans n1 n2⟩

theorem mem_summary_none {db : DB} {v : SummaryRow} :
    v ∈ get_all_contacts_summary db none ↔
      ∃ n ∈ (db.contacts.map ContactRow.name).dedup, summaryRow db n = v := by
  unfold get_all_contacts_summary
  simp only [List.mem_insertionSort, List.mem_map]

/-- C3: the summary has exactly one row per distinct contact name; each
row's `latestOutcome` and `lastCalledDate` come from the most recent call
of that name (or are null when it was never called); `dnpCount` is the
total number of DNP calls ever logged to the name; the rows are sorted
un-attempted-last, then by last-called date descending with name-ascending
tiebreak; and the DNP filter keeps exactly the rows whose latest outcome
is DNP, each still carrying its full historical DNP count. -/
theorem C3_all_contacts_summary :
    ∀ db : DB,
      (((get_all_contacts_summary db none).map SummaryRow.name).Nodup
        ∧ (∀ n : String, (∃ v ∈ get_all_contacts_summary db none, v.name = n) ↔
            ∃ c ∈ db.contacts, c.name = n))
      ∧ (∀ v ∈ get_all_contacts_summary db none,
          ((v.latest_response = none ∧ ∀ k ∈ db.calls, k.name ≠ v.name)
            ∨ (∃ k ∈ db.calls, k.name = v.name ∧
                v.latest_response = some k.response ∧
                v.last_called_date = some k.date ∧
                ∀ k' ∈ db.calls, k'.name = v.name → recentLe k' k))
          ∧ v.dnp_count = dnpCountFor db.calls v.name)
      ∧ List.Sorted sumRel (get_all_contacts_summary db none)
      ∧ (get_all_contacts_summary db (some ["DNP"]) =
            (get_all_contacts_summary db none).filter
              (fun r => decide (r.display_response = "DNP"))
          ∧ ∀ v ∈ get_all_contacts_summary db (some ["DNP"]),
              v.latest_response = some "DNP"
                ∧ v.dnp_count = dnpCountFor db.calls v.name) := by
  intro db
  have hfil : get_all_contacts_summary db (some ["DNP"]) =
      (get_all_contacts_summary db none).filter
        (fun r => decide (r.display_response = "DNP")) := by
    unfold get_all_contacts_summary
    dsimp only
    rw [if_neg (by simp)]
    apply List.filter_congr
    intro x _
    simp
  have hrow : ∀ v ∈ get_all_contacts_summary db none,
      ((v.latest_response = none ∧ ∀ k ∈ db.calls, k.name ≠ v.name)
        ∨ (∃ k ∈ db.calls, k.name = v.name ∧
            v.latest_response = some k.response ∧
            v.last_called_date = some k.date ∧
            ∀ k' ∈ db.calls, k'.name = v.name → recentLe k' k))
      ∧ v.dnp_count = dnpCountFor db.calls v.name := by
    intro v hv
    obtain ⟨n, -, rfl⟩ := mem_summary_none.mp hv
    rw [summaryRow_name, summaryRow_dnp]
    exact ⟨summary_latest_spec db n, rfl⟩
  have hdisp : ∀ v ∈ get_all_contacts_summary db none,
      v.display_response = "DNP" → v.latest_response = some "DNP" := by
    intro v hv hd
    obtain ⟨n, -, rfl⟩ := mem_summary_none.mp hv
    unfold summaryRow at hd ⊢
    cases h : latestCall db.calls n with
    | none =>
        rw [h] at hd
        simp at hd
    | some k =>
        rw [h] at hd
        dsimp only at hd ⊢
        rw [hd]
  refine ⟨⟨?_, ?_⟩, hrow, ?_, hfil, ?_⟩
  · have hperm : List.Perm (get_all_contacts_summary db none)
        (((db.contacts.map ContactRow.name).dedup).map (summaryRow db)) :=
      List.perm_insertionSort _ _
    have hmapped := hperm.map SummaryRow.name
    rw [List.map_map] at hmapped
    have hcomp : SummaryRow.name ∘ summaryRow db = id := by
      funext m
      exact summaryRow_name db m
    rw [hcomp, List.map_id] at hmapped
    exact hmapped.nodup_iff.mpr (List.nodup_dedup _)
  · intro n
    unfold get_all_contacts_summary
    simp only [List.mem_insertionSort]
    rw [exists_name_map_sum (summaryRow_name db), List.mem_dedup]
    simp only [List.mem_map]
  · haveI : IsTotal SummaryRow sumRel := ⟨sumRel_total⟩
    haveI : IsTrans SummaryRow sumRel := ⟨fun a b c => sumRel_trans a b c⟩
    exact List.sorted_insertionSort _ _
  · intro v hv
    rw [hfil] at hv
    obtain ⟨hvb, hvd⟩ := List.mem_filter.mp hv
    rw [decide_eq_true_eq] at hvd
    exact ⟨hdisp v hvb hvd, (hrow v hvb).2⟩

/-! ## The add-call handler with no target row (claim C10) -/

/-- The Success-Achieved message. -/
def achievedMsg : Message :=
  ⟨"Target achieved! Keep the momentum going!", "success", "🎉🏆"⟩

theorem get_daily_target_none {db : DB} {d : String}
    (h : ∀ p ∈ db.targets, p.1 ≠ d) : get_daily_target db d = none := by
  unfold get_daily_target
  rw [List.find?_eq_none.mpr]
  · rfl
  · intro p hp
    simp [h p hp]

theorem validResp_upper_abc {r : String}
    (h : upper r = "A" ∨ upper r = "B" ∨ upper r = "C") : validResp (upper r) := by
  unfold validResp
  tauto

/-- C10: an add-call request for a date with no target row builds the
encouragement with target 0; since the just-added call makes the
successful count at least 1, a successful (A/B/C) outcome always yields
the Success-Achieved message, never Rampage or the progress message. -/
theorem C10_addcall_without_target (db : DB) (name response d : String)
    (hname : ¬ strip name = "")
    (habc : upper response = "A" ∨ upper response = "B" ∨ upper response = "C")
    (hnot : ∀ p ∈ db.targets, p.1 ≠ d) :
    (handle db (.addCall name response d)).2 =
      { okResp with message := some achievedMsg } := by
  have hvalid : validResp (upper response) := validResp_upper_abc habc
  simp only [handle]
  rw [if_neg hname, if_neg (not_not_intro hvalid)]
  dsimp only
  have hs : (get_today_stats (add_call db (strip name) (upper response) d).1 d).successful =
      succOn db.calls d + 1 := by
    unfold get_today_stats add_call succOn
    dsimp only
    rw [List.countP_append]
    rcases habc with h | h | h <;> simp [h]
  have ht : ((get_daily_target (add_call db (strip name) (upper response) d).1 d).getD 0
      : Int) = 0 := by
    have : get_daily_target (add_call db (strip name) (upper response) d).1 d = none :=
      get_daily_target_none (by exact hnot)
    rw [this]
    rfl
  rw [hs, ht, gem_achieved habc (by push_cast; omega)]
  rfl

/-! ## No operation writes an out-of-enum outcome (claim C9) -/

/-- Number of legacy `CATCHUP` rows in the store. -/
def countCatchup (calls : List CallRow) : Nat :=
  calls.countP (fun k => decide (k.response = "CATCHUP"))

theorem validResp_ne_catchup {r : String} (h : validResp r) : r ≠ "CATCHUP" := by
  unfold validResp at h
  rcases h with h | h | h | h | h <;> rw [h] <;> decide

theorem add_contact_ok_state {db : DB} {n d : String} {skip : Bool} {p : DB × Nat}
    (h : add_contact db n d skip = .ok p) :
    p.1.calls = db.calls ∧ p.1.today = db.today ∧ p.1.targets = db.targets := by
  unfold add_contact at h
  split at h
  · cases h
  · split at h
    · cases h
    · injection h with h
      rw [← h]
      exact ⟨rfl, rfl, rfl⟩

theorem addMultipleAux_calls (db : DB) (ns : List String) :
    (addMultipleAux db ns).1.calls = db.calls := by
  induction ns generalizing db with
  | nil => rfl
  | cons n rest ih =>
    simp only [addMultipleAux]
    split
    · exact ih db
    · cases hadd : add_contact db (strip n) db.today true with
      | ok p =>
          dsimp only
          rw [ih p.1, (add_contact_ok_state hadd).1]
      | error e =>
          dsimp only
          exact ih db

theorem countP_map_le {α : Type} (l : List α) (f : α → α) (p : α → Bool)
    (h : ∀ x ∈ l, p (f x) = true → p x = true) :
    (l.map f).countP p ≤ l.countP p := by
  induction l with
  | nil => simp
  | cons a t ih =>
    simp only [List.map_cons, List.countP_cons]
    have hih := ih (fun x hx => h x (List.mem_cons_of_mem _ hx))
    by_cases hp : p (f a) = true
    · rw [if_pos hp, if_pos (h a (List.mem_cons_self _ _) hp)]
      omega
    · rw [if_neg hp]
      split <;> omega

theorem handle_calls_safe (db : DB) (op : Op) :
    (∀ k ∈ (handle db op).1.calls, k ∈ db.calls ∨ validResp k.response)
    ∧ countCatchup (handle db op).1.calls ≤ countCatchup db.calls := by
  cases op with
  | setTarget t d =>
      simp only [handle]
      split
      · exact ⟨fun k hk => Or.inl hk, le_refl _⟩
      · exact ⟨fun k hk => Or.inl hk, le_refl _⟩
  | addCall name response d =>
      simp only [handle]
      split
      · exact ⟨fun k hk => Or.inl hk, le_refl _⟩
      · split
        next hvalid =>
          exact ⟨fun k hk => Or.inl hk, le_refl _⟩
        next hvalid =>
          have hval : validResp (upper response) := not_not.mp hvalid
          dsimp only
          simp only [add_call]
          constructor
          · intro k hk
            rcases List.mem_append.mp hk with hk | hk
            · exact Or.inl hk
            · right
              rw [List.mem_singleton.mp hk]
              exact hval
          · unfold countCatchup
            rw [List.countP_append]
            simp [validResp_ne_catchup hval]
  | deleteCall cid =>
      simp only [handle]
      split
      · exact ⟨fun k hk => Or.inl hk, le_refl _⟩
      · split
        · refine ⟨fun k hk => Or.inl (List.mem_filter.mp hk).1, ?_⟩
          unfold countCatchup
          exact List.Sublist.countP_le _ (List.filter_sublist _)
        · exact ⟨fun k hk => Or.inl hk, le_refl _⟩
  | updateCall cid response d =>
      simp only [handle]
      split
      · exact ⟨fun k hk => Or.inl hk, le_refl _⟩
      · split
        next hvalid =>
          exact ⟨fun k hk => Or.inl hk, le_refl _⟩
        next hvalid =>
          have hval : validResp (upper response) := not_not.mp hvalid
          split
          · dsimp only
            constructor
            · intro k hk
              obtain ⟨x, hx, hfx⟩ := List.mem_map.mp hk
              by_cases hid : x.id = cid
              · right
                rw [← hfx, if_pos hid]
                exact hval
              · left
                rw [← hfx, if_neg hid]
                exact hx
            · unfold countCatchup
              apply countP_map_le
              intro x hx hpx
              by_cases hid : x.id = cid
              · rw [if_pos hid, decide_eq_true_eq] at hpx
                exact absurd hpx (validResp_ne_catchup hval)
              · rw [if_neg hid] at hpx
                exact hpx
          · exact ⟨fun k hk => Or.inl hk, le_refl _⟩
  | addContact name d =>
      simp only [handle]
      split
      · exact ⟨fun k hk => Or.inl hk, le_refl _⟩
      · cases hadd : add_contact db (strip name) d false with
        | ok p =>
            dsimp only
            rw [(add_contact_ok_state hadd).1]
            exact ⟨fun k hk => Or.inl hk, le_refl _⟩
        | error e =>
            dsimp only
            exact ⟨fun k hk => Or.inl hk, le_refl _⟩
  | deleteContact cid =>
      simp only [handle]
      split
      · exact ⟨fun k hk => Or.inl hk, le_refl _⟩
      · split
        · exact ⟨fun k hk => Or.inl hk, le_refl _⟩
        · exact ⟨fun k hk => Or.inl hk, le_refl _⟩
  | addToToday name =>
      simp only [handle]
      split
      · exact ⟨fun k hk => Or.inl hk, le_refl _⟩
      · cases hadd : add_contact db (strip name) db.today true with
        | ok p =>
            dsimp only
            rw [(add_contact_ok_state hadd).1]
            exact ⟨fun k hk => Or.inl hk, le_refl _⟩
        | error e =>
            dsimp only
            exact ⟨fun k hk => Or.inl hk, le_refl _⟩
  | addMultipleToToday names =>
      simp only [handle]
      split
      · exact ⟨fun k hk => Or.inl hk, le_refl _⟩
      · dsimp only
        rw [addMultipleAux_calls]
        exact ⟨fun k hk => Or.inl hk, le_refl _⟩

/-- C9: no operation ever writes a call row with an outcome outside
{A, B, C, NA, DNP}: every call row in the post-state is either an
untouched pre-state row or carries a valid outcome; the number of legacy
CATCHUP rows never grows; and both call creation and call update reject an
invalid outcome token with a 400 validation error, leaving the store
untouched. -/
theorem C9_outcome_invariant :
    ∀ db : DB,
      (∀ op : Op, ∀ k ∈ (handle db op).1.calls, k ∈ db.calls ∨ validResp k.response)
      ∧ (∀ op : Op, countCatchup (handle db op).1.calls ≤ countCatchup db.calls)
      ∧ (∀ name response d : String, ¬ validResp (upper response) →
          handle db (.addCall name response d) = (db, errResp 400 "Name is required")
          ∨ handle db (.addCall name response d) =
              (db, errResp 400 "Invalid response type"))
      ∧ (∀ (cid : Nat) (response d : String), ¬ validResp (upper response) →
          handle db (.updateCall cid response d) =
              (db, errResp 400 "Call ID is required")
          ∨ handle db (.updateCall cid response d) =
              (db, errResp 400 "Invalid response type")) := by
  intro db
  refine ⟨fun op => (handle_calls_safe db op).1, fun op => (handle_calls_safe db op).2,
    ?_, ?_⟩
  · intro name response d hnv
    simp only [handle]
    by_cases hs : strip name = ""
    · left
      rw [if_pos hs]
    · right
      rw [if_neg hs, if_pos hnv]
  · intro cid response d hnv
    simp only [handle]
    by_cases hc : cid = 0
    · left
      rw [if_pos hc]
    · right
      rw [if_neg hc, if_pos hnv]

/-! ## Error surfacing across the mutating endpoints (claim C5) -/

/-- A structured JSON error response with a 4xx status. -/
def is4xx (r : Resp) : Prop := 400 ≤ r.status ∧ r.status < 500 ∧ r.error ≠ none

/-- The validation / duplicate / not-found condition of each endpoint's
underlying operation (the situation in which the database layer raises or
the handler's own validation fails). -/
def dbError : Op → DB → Prop
  | .setTarget t _, _ => t < 1
  | .addCall name response _, _ => strip name = "" ∨ ¬ validResp (upper response)
  | .deleteCall cid, db => cid = 0 ∨ ∀ k ∈ db.calls, k.id ≠ cid
  | .updateCall cid response _, db =>
      cid = 0 ∨ ¬ validResp (upper response) ∨ ∀ k ∈ db.calls, k.id ≠ cid
  | .addContact name d, db =>
      strip name = "" ∨ contact_exists_for_date db (strip name) d = true
        ∨ contact_exists_anywhere db (strip name) = true
  | .deleteContact cid, db => cid = 0 ∨ ∀ c ∈ db.contacts, c.id ≠ cid
  | .addToToday name, db =>
      strip name = "" ∨ contact_exists_for_date db (strip name) db.today = true
  | .addMultipleToToday names, _ => names = []

/-- The best-effort batch endpoint. -/
def isAddMultiple : Op → Prop
  | .addMultipleToToday _ => True
  | _ => False

/-- The one behavior the handlers deliberately swallow: a duplicate of a
non-blank name posted to the single add-to-today endpoint, which is
answered as a 200 success carrying `already_exists` instead of an error.
(The batch endpoint's per-item failures are not endpoint-level errors; its
only validation error is an empty name list.) -/
def isSwallowedCase : Op → DB → Prop
  | .addToToday name, db =>
      ¬ strip name = "" ∧ contact_exists_for_date db (strip name) db.today = true
  | _, _ => False

/-- Claim C5 as stated: apart from the batch endpoint, every endpoint
whose underlying operation fails surfaces the failure as a 4xx structured
error. -/
def claimC5Statement : Prop :=
  ∀ (op : Op) (db : DB), dbError op db → ¬ isAddMultiple op → is4xx (handle db op).2

theorem is4xx_errResp {c : Nat} {m : String} (h1 : 400 ≤ c) (h2 : c < 500) :
    is4xx (errResp c m) := ⟨h1, h2, by simp [errResp]⟩

/-- A store in which "bob" is already registered for the current day. -/
def dupTodayDB : DB := ⟨[], [], [⟨1, "bob", "2024-01-02", 0⟩], 1, 2, 1, "2024-01-02"⟩

/-- C5 counterexample: posting "bob" to `/add-to-today` while "bob" is
already in today's list makes the database layer raise a duplicate error,
yet the handler answers 200 with `already_exists = true` instead of a 4xx
error — the single add-to-today endpoint also swallows the failure. -/
theorem C5_counterexample : ¬ claimC5Statement := by
  intro h
  have hc := h (.addToToday "bob") dupTodayDB (Or.inr (by decide))
    (by simp [isAddMultiple])
  have hstat : (handle dupTodayDB (.addToToday "bob")).2.status = 200 := by decide
  obtain ⟨h1, -, -⟩ := hc
  rw [hstat] at h1
  omega

theorem add_contact_error_of_dup {db : DB} {n d : String}
    (h : contact_exists_for_date db n d = true ∨ contact_exists_anywhere db n = true) :
    ∃ e, add_contact db n d false = .error e := by
  unfold add_contact
  by_cases h1 : contact_exists_for_date db n d = true
  · rw [if_pos h1]
    exact ⟨_, rfl⟩
  · rcases h with h | h
    · exact absurd h h1
    · rw [if_neg h1, if_pos (by simp [h])]
      exact ⟨_, rfl⟩

theorem add_contact_ok_more {db : DB} {n d : String} {skip : Bool} {p : DB × Nat}
    (h : add_contact db n d skip = .ok p) :
    p.1.contacts = db.contacts ++ [⟨db.nextContactId, n, d, db.nextTime⟩]
      ∧ contact_exists_for_date db n d = false := by
  unfold add_contact at h
  split at h
  next hc => cases h
  next hc =>
    split at h
    · cases h
    · injection h with h
      rw [← h]
      exact ⟨rfl, by simpa using hc⟩

theorem add_contact_skip_error {db : DB} {n d e : String}
    (h : add_contact db n d true = .error e) :
    contact_exists_for_date db n d = true := by
  unfold add_contact at h
  split at h
  next hc => exact hc
  next hc =>
    split at h
    next hc2 => simp at hc2
    next => cases h

theorem exists_after_ok {db : DB} {n : String} {skip : Bool} {p : DB × Nat}
    (h : add_contact db n db.today skip = .ok p) (x : String) :
    contact_exists_for_date p.1 x p.1.today =
      (contact_exists_for_date db x db.today || decide (n = x)) := by
  obtain ⟨hcon, -⟩ := add_contact_ok_more h
  have htoday : p.1.today = db.today := (add_contact_ok_state h).2.1
  unfold contact_exists_for_date
  rw [htoday, hcon, List.any_append]
  simp

theorem count_filter_nonblank {x : String} (hx : ¬ x = "") :
    ∀ l : List String, (l.filter (fun y => !decide (y = ""))).count x = l.count x := by
  intro l
  induction l with
  | nil => rfl
  | cons a t ih =>
    by_cases ha : a = ""
    · rw [List.filter_cons_of_neg (by simp [ha]), ih, List.count_cons]
      have hbe : (a == x) = false :=
        beq_eq_false_iff_ne.mpr (by rw [ha]; exact fun hc => hx hc.symm)
      rw [hbe]
      simp
    · rw [List.filter_cons_of_pos (by simp [ha]), List.count_cons, List.count_cons, ih]

theorem addMultipleAux_added_count {x : String} (hx : ¬ x = "") :
    ∀ (ns : List String) (db : DB),
      (addMultipleAux db ns).2.1.count x =
        (if contact_exists_for_date db x db.today = true then 0
         else min 1 ((ns.map strip).count x)) := by
  intro ns
  induction ns with
  | nil =>
      intro db
      simp [addMultipleAux]
  | cons n rest ih =>
      intro db
      by_cases hn : strip n = ""
      · have hbe : (strip n == x) = false :=
          beq_eq_false_iff_ne.mpr (by rw [hn]; exact fun hc => hx hc.symm)
        simp only [addMultipleAux, if_pos hn, List.map_cons, List.count_cons, hbe]
        rw [ih db]
        simp
      · cases hadd : add_contact db (strip n) db.today true with
        | ok p =>
            have hex := exists_after_ok hadd x
            simp only [addMultipleAux, if_neg hn, hadd]
            by_cases hxn : strip n = x
            · have hfalse : contact_exists_for_date db x db.today = false := by
                rw [← hxn]
                exact (add_contact_ok_more hadd).2
              have htrue2 : contact_exists_for_date p.1 x p.1.today = true := by
                rw [hex, hxn]
                simp
              have hbe : (strip n == x) = true := beq_iff_eq.mpr hxn
              rw [List.count_cons, ih p.1, if_pos htrue2, hfalse,
                List.map_cons, List.count_cons, hbe]
              simp
            · have hbe : (strip n == x) = false := beq_eq_false_iff_ne.mpr hxn
              have hsame : contact_exists_for_date p.1 x p.1.today =
                  contact_exists_for_date db x db.today := by
                rw [hex]
                have hd : decide (strip n = x) = false := by simp [hxn]
                rw [hd, Bool.or_false]
              rw [List.count_cons, ih p.1, hsame, List.map_cons, List.count_cons, hbe]
              simp
        | error e =>
            have hdup := add_contact_skip_error hadd
            simp only [addMultipleAux, if_neg hn, hadd]
            by_cases hxn : strip n = x
            · have htrue : contact_exists_for_date db x db.today = true := by
                rw [← hxn]
                exact hdup
              rw [ih db, htrue]
              simp [htrue]
            · have hbe : (strip n == x) = false := beq_eq_false_iff_ne.mpr hxn
              rw [ih db, List.map_cons, List.count_cons, hbe]
              simp

theorem addMultipleAux_perm (db : DB) (ns : List String) :
    List.Perm ((addMultipleAux db ns).2.1 ++ (addMultipleAux db ns).2.2)
      ((ns.map strip).filter (fun x => !decide (x = ""))) := by
  induction ns generalizing db with
  | nil => simp [addMultipleAux]
  | cons n rest ih =>
    by_cases hn : strip n = ""
    · simp only [addMultipleAux, if_pos hn, List.map_cons, List.filter_cons, hn]
      simpa using ih db
    · cases hadd : add_contact db (strip n) db.today true with
      | ok p =>
          simp only [addMultipleAux, if_neg hn, hadd, List.map_cons, List.filter_cons]
          rw [if_pos (by simp [hn])]
          rw [List.cons_append]
          exact (ih p.1).cons _
      | error e =>
          simp only [addMultipleAux, if_neg hn, hadd, List.map_cons, List.filter_cons]
          rw [if_pos (by simp [hn])]
          exact List.perm_middle.trans ((ih db).cons _)

/-- C5 amended: every Duplicate/Validation/NotFound failure of a mutating
endpoint is surfaced as a structured 4xx JSON error, with two exceptions:
the single add-to-today endpoint reports a duplicate as a 200 success
carrying `already_exists = true`, and the best-effort batch endpoint
answers 200 and partitions every non-blank submitted (stripped) name
between its `added` and `skipped` lists instead of aborting. -/
theorem C5_amended_error_surfacing :
    ∀ db : DB,
      (∀ op : Op, dbError op db → ¬ isSwallowedCase op db → is4xx (handle db op).2)
      ∧ (∀ name : String, ¬ strip name = "" →
          contact_exists_for_date db (strip name) db.today = true →
          handle db (.addToToday name) = (db, { okResp with already_exists := true }))
      ∧ (∀ names : List String, names ≠ [] →
          (handle db (.addMultipleToToday names)).2.status = 200
          ∧ List.Perm
              ((handle db (.addMultipleToToday names)).2.added ++
                (handle db (.addMultipleToToday names)).2.skipped)
              ((names.map strip).filter (fun x => !decide (x = "")))
          ∧ (∀ x : String, ¬ x = "" →
              (handle db (.addMultipleToToday names)).2.added.count x =
                (if contact_exists_for_date db x db.today = true then 0
                 else min 1 ((names.map strip).count x))
              ∧ (handle db (.addMultipleToToday names)).2.skipped.count x =
                  (names.map strip).count x -
                    (handle db (.addMultipleToToday names)).2.added.count x)
          ∧ (∀ x ∈ (handle db (.addMultipleToToday names)).2.skipped,
              ¬ x = "" ∧ x ∈ names.map strip ∧
                (contact_exists_for_date db x db.today = true
                  ∨ 2 ≤ (names.map strip).count x))) := by
  intro db
  refine ⟨?_, ?_, ?_⟩
  · intro op hE hsw
    cases op with
    | setTarget t d =>
        have ht : t < 1 := hE
        simp only [handle]
        rw [if_pos ht]
        exact is4xx_errResp (by omega) (by omega)
    | addCall name response d =>
        simp only [handle]
        by_cases hs : strip name = ""
        · rw [if_pos hs]
          exact is4xx_errResp (by omega) (by omega)
        · rcases hE with hE | hE
          · exact absurd hE hs
          · rw [if_neg hs, if_pos hE]
            exact is4xx_errResp (by omega) (by omega)
    | deleteCall cid =>
        simp only [handle]
        by_cases hc : cid = 0
        · rw [if_pos hc]
          exact is4xx_errResp (by omega) (by omega)
        · rcases hE with hE | hE
          · exact absurd hE hc
          · rw [if_neg hc, if_neg ?_]
            · exact is4xx_errResp (by omega) (by omega)
            · intro hcontra
              obtain ⟨k, hk, hkid⟩ := List.any_eq_true.mp hcontra
              rw [decide_eq_true_eq] at hkid
              exact hE k hk hkid
    | updateCall cid response d =>
        simp only [handle]
        by_cases hc : cid = 0
        · rw [if_pos hc]
          exact is4xx_errResp (by omega) (by omega)
        · by_cases hv : validResp (upper response)
          · rcases hE with hE | hE | hE
            · exact absurd hE hc
            · exact absurd hv hE
            · rw [if_neg hc, if_neg (not_not_intro hv), if_neg ?_]
              · exact is4xx_errResp (by omega) (by omega)
              · intro hcontra
                obtain ⟨k, hk, hkid⟩ := List.any_eq_true.mp hcontra
                rw [decide_eq_true_eq] at hkid
                exact hE k hk hkid
          · rw [if_neg hc, if_pos hv]
            exact is4xx_errResp (by omega) (by omega)
    | addContact name d =>
        simp only [handle]
        by_cases hs : strip name = ""
        · rw [if_pos hs]
          exact is4xx_errResp (by omega) (by omega)
        · rcases hE with hE | hE
          · exact absurd hE hs
          · rw [if_neg hs]
            obtain ⟨e, he⟩ := add_contact_error_of_dup hE
            rw [he]
            exact is4xx_errResp (by omega) (by omega)
    | deleteContact cid =>
        simp only [handle]
        by_cases hc : cid = 0
        · rw [if_pos hc]
          exact is4xx_errResp (by omega) (by omega)
        · rcases hE with hE | hE
          · exact absurd hE hc
          · rw [if_neg hc, if_neg ?_]
            · exact is4xx_errResp (by omega) (by omega)
            · intro hcontra
              obtain ⟨c, hcm, hcid⟩ := List.any_eq_true.mp hcontra
              rw [decide_eq_true_eq] at hcid
              exact hE c hcm hcid
    | addToToday name =>
        by_cases hs : strip name = ""
        · simp only [handle]
          rw [if_pos hs]
          exact is4xx_errResp (by omega) (by omega)
        · rcases hE with hE | hE
          · exact absurd hE hs
          · exact absurd ⟨hs, hE⟩ hsw
    | addMultipleToToday names =>
        have hne : names = [] := hE
        simp only [handle]
        rw [if_pos hne]
        exact is4xx_errResp (by omega) (by omega)
  · intro name hname hdup
    simp only [handle]
    rw [if_neg hname]
    have he : add_contact db (strip name) db.today true =
        .error ("Contact " ++ strip name ++ " already in today" ++ "s list") := by
      unfold add_contact
      rw [if_pos hdup]
    rw [he]
  · intro names hne
    have hperm : List.Perm
        ((handle db (.addMultipleToToday names)).2.added ++
          (handle db (.addMultipleToToday names)).2.skipped)
        ((names.map strip).filter (fun x => !decide (x = ""))) := by
      simp only [handle]
      rw [if_neg hne]
      exact addMultipleAux_perm db names
    have hadded : ∀ x : String, ¬ x = "" →
        (handle db (.addMultipleToToday names)).2.added.count x =
          (if contact_exists_for_date db x db.today = true then 0
           else min 1 ((names.map strip).count x)) := by
      intro x hx
      simp only [handle]
      rw [if_neg hne]
      exact addMultipleAux_added_count hx names db
    have htot : ∀ x : String, ¬ x = "" →
        (handle db (.addMultipleToToday names)).2.added.count x +
          (handle db (.addMultipleToToday names)).2.skipped.count x =
            (names.map strip).count x := by
      intro x hx
      have := hperm.count_eq x
      rw [List.count_append, count_filter_nonblank hx] at this
      exact this
    refine ⟨?_, hperm, ?_, ?_⟩
    · simp only [handle]
      rw [if_neg hne]
      rfl
    · intro x hx
      refine ⟨hadded x hx, ?_⟩
      have h1 := htot x hx
      omega
    · intro x hxs
      have hxm : x ∈ (names.map strip).filter (fun y => !decide (y = "")) :=
        hperm.mem_iff.mp (List.mem_append.mpr (Or.inr hxs))
      obtain ⟨hxmem, hxb⟩ := List.mem_filter.mp hxm
      have hx : ¬ x = "" := by simpa using hxb
      refine ⟨hx, hxmem, ?_⟩
      have hcnt : 0 < (handle db (.addMultipleToToday names)).2.skipped.count x :=
        List.count_pos_iff.mpr hxs
      have h1 := htot x hx
      have h2 := hadded x hx
      by_cases hex : contact_exists_for_date db x db.today = true
      · exact Or.inl hex
      · right
        rw [if_neg hex] at h2
        omega

/-- Witness for C10 at a concrete store with no target rows. -/
theorem C10_witness :
    ¬ (strip "x" = "")
    ∧ (upper "a" = "A" ∨ upper "a" = "B" ∨ upper "a" = "C")
    ∧ (∀ p ∈ dayOneDB.targets, p.1 ≠ "2024-01-01")
    ∧ (handle dayOneDB (.addCall "x" "a" "2024-01-01")).2 =
        { okResp with message := some achievedMsg } :=
  ⟨by decide, by decide, by decide,
   C10_addcall_without_target dayOneDB "x" "a" "2024-01-01" (by decide) (by decide)
     (by decide)⟩

end Agenda
